import Mathlib

/-!
Shallow embedding of `src/list-posts.c` (the blog post-manifest builder).

A file on disk is modelled as the list of lines `getline` would return:
each element is a `List Char` that includes its trailing newline (a final
line at end-of-file may lack one).  A directory is a list of
`(name, lines)` pairs in enumeration order.  C strings are `List Char`
where the end of the list plays the role of the NUL terminator.
-/

namespace ListPosts

/-- `struct Post`: the 64-bit date sort key and the accumulated JSON text.
The C struct leaves `date` uninitialized when no date line occurs; the
embedding initializes it to 0, and no theorem below inspects that value
for a record without a date line. -/
structure Post where
  date : Int
  json : List Char
deriving DecidableEq

/-- `MAX_POSTS` from the `enum` on line 22. -/
def MAX_POSTS : Nat := 100

/-- The literal `"---\n"` (line 36). -/
def metadata_separator : List Char := ("---\n").data

/-- `date_line_len = strlen("date: YYYY-MM-DD\n")` (line 37). -/
def date_line_len : Nat := ("date: YYYY-MM-DD\n").length

/-- The literal `"date"` compared against by `strncmp` on line 75. -/
def dateLit : List Char := ("date").data

/-- Index of the first occurrence of `c`, mirroring `strchr` (line 67):
`none` plays the role of the NULL pointer. -/
def strchrIdx : List Char → Char → Option Nat
  | [], _ => none
  | x :: xs, c => if x = c then some 0 else (strchrIdx xs c).map (· + 1)

/-- C `strncmp` on NUL-terminated byte strings: the end of a list is the
NUL terminator, and an explicit `'\x00'` character also terminates. -/
def strncmp : List Char → List Char → Nat → Int
  | _, _, 0 => 0
  | [], [], _ + 1 => 0
  | [], d :: _, _ + 1 => 0 - (d.toNat : Int)
  | c :: _, [], _ + 1 => (c.toNat : Int)
  | c :: a, d :: b, n + 1 =>
    if c = d then (if c.toNat = 0 then 0 else strncmp a b n)
    else (c.toNat : Int) - (d.toNat : Int)

/-- `cmp_posts` (lines 27-32), exactly as written: `d` subtracts
`rhs_date` from itself. -/
def cmp_posts (lhs rhs : Post) : Int :=
  let lhs_date := lhs.date
  let rhs_date := rhs.date
  let d := rhs_date - rhs_date
  (if d > 0 then (1 : Int) else 0) - (if d < 0 then (1 : Int) else 0)

/-- Byte `i` of the region starting at `colon + 2`, as read through the
`struct DateString` overlay (lines 14-20 and 80). -/
def byteAt (v : List Char) (i : Nat) : Nat := (v.getD i '\x00').toNat

/-- The packed date key built on lines 81-84: year, month and day digit
bytes shifted into a 64-bit integer most-significant first (the two
hyphen bytes at offsets 4 and 7 are skipped by the struct layout). -/
def dateKey (v : List Char) : Nat :=
  byteAt v 0 <<< 56 ||| byteAt v 1 <<< 48 ||| byteAt v 2 <<< 40 ||| byteAt v 3 <<< 32 |||
  byteAt v 5 <<< 24 ||| byteAt v 6 <<< 16 ||| byteAt v 8 <<< 8 ||| byteAt v 9

/-- The cast `(int64_t)date` on line 85. -/
def toInt64 (n : Nat) : Int :=
  if n % 2 ^ 64 < 2 ^ 63 then ((n % 2 ^ 64 : Nat) : Int)
  else ((n % 2 ^ 64 : Nat) : Int) - 2 ^ 64

/-- The ASCII bytes of a string read as one big-endian integer (the
spec's reference description of the sort key). -/
def beBytes (l : List Char) : Nat := l.foldl (fun a c => a * 256 + c.toNat) 0

/-- The fatal error conditions reported by `main` (directory- and
file-open failures are outside the model: the modelled filesystem is the
given listing). -/
inductive Err where
  | missingColon (file line : List Char)
  | malformedDate (file line : List Char)
  | tooManyPosts (n : Nat)
deriving DecidableEq

/-- The value printed by `"%.*s"` with precision `len - key_len - 3`
starting at `colon + 2` (lines 73-74).  When the precision is negative C
prints up to the NUL, i.e. the rest of the line; truncated `Nat`
subtraction yields the same list because `drop` past the end is empty. -/
def fieldValue (line : List Char) (keyLen : Nat) : List Char :=
  (line.drop (keyLen + 2)).take (line.length - keyLen - 3)

/-- One iteration of the header loop body (lines 67-86): `acc` is the
JSON text built so far together with the current `post.date`. -/
def processLine (name line : List Char) (acc : List Char × Int) :
    Except Err (List Char × Int) :=
  match strchrIdx line ':' with
  | none => .error (.missingColon name line)
  | some keyLen =>
    let json := acc.1 ++ (", \"").data ++ line.take keyLen ++ ("\": \"").data ++
      fieldValue line keyLen ++ ("\"").data
    if strncmp line dateLit keyLen = 0 then
      if line.length ≠ date_line_len then .error (.malformedDate name line)
      else .ok (json, toInt64 (dateKey (line.drop (keyLen + 2))))
    else .ok (json, acc.2)

/-- The header lines visited by the loop on lines 64-66: the first line
is skipped unconditionally, and reading stops at `"---\n"` or EOF. -/
def headerLines (lines : List (List Char)) : List (List Char) :=
  (lines.drop 1).takeWhile (fun l => l ≠ metadata_separator)

/-- The header loop (lines 65-87) folded over the header lines. -/
def processHeader (name : List Char) :
    List (List Char) → List Char × Int → Except Err (List Char × Int)
  | [], acc => .ok acc
  | l :: ls, acc =>
    match processLine name l acc with
    | .error e => .error e
    | .ok acc2 => processHeader name ls acc2

/-- Processing of one file (lines 53-90): the JSON starts with the path
field (line 55) and is closed with `'\x7d'` (line 89). -/
def processFile (name : List Char) (lines : List (List Char)) : Except Err Post :=
  match processHeader name (headerLines lines) (("\x7b\"path\": \"").data ++ name ++ ("\"").data, 0) with
  | .error e => .error e
  | .ok acc => .ok { date := acc.2, json := acc.1 ++ ("\x7d").data }

/-- A directory entry: name and file contents. -/
abbrev DirEntry := List Char × List (List Char)

/-- The `readdir` loop (lines 48-96).  The accumulator records, for each
stored record, the array index used by `posts[nposts++] = post`
(line 91), so that out-of-bounds stores are observable; the capacity
test `nposts > MAX_POSTS` (line 92) runs after the store, as in the
source. -/
def runLoop : List DirEntry → Nat → List (Nat × Post) → List (Nat × Post) × Option Err
  | [], _, writes => (writes, none)
  | (name, lines) :: rest, nposts, writes =>
    if name.head? = some '.' then runLoop rest nposts writes
    else
      match processFile name lines with
      | .error e => (writes, some e)
      | .ok post =>
        let writes2 := writes ++ [(nposts, post)]
        if nposts + 1 > MAX_POSTS then (writes2, some (.tooManyPosts (nposts + 1)))
        else runLoop rest (nposts + 1) writes2

/-- The record array contents when the loop finishes without error. -/
def run (files : List DirEntry) : Except Err (List Post) :=
  match runLoop files 0 [] with
  | (writes, none) => .ok (writes.map Prod.snd)
  | (_, some e) => .error e

/-- `qsort(posts, nposts, sizeof(struct Post), cmp_posts)` (line 97),
modelled as a stable comparison sort: `a` stays before `b` whenever
`cmp_posts a b <= 0`. -/
def sortPosts (ps : List Post) : List Post :=
  ps.mergeSort (fun a b => cmp_posts a b ≤ 0)

/-- The text written to standard output on success (lines 98-102):
`puts` appends a newline to each record. -/
def output (ps : List Post) : List Char :=
  ("[\n").data ++ (ps.map (fun p => p.json ++ [('\n' : Char)])).flatten ++ ("]\n").data

/-- The whole program: standard output is produced only when every file
was processed without error. -/
def listPosts (files : List DirEntry) : Except Err (List Char) :=
  match run files with
  | .error e => .error e
  | .ok posts => .ok (output (sortPosts posts))

/-- A `key: value` header line as laid out on disk. -/
def renderLine (kv : List Char × List Char) : List Char :=
  kv.1 ++ (": ").data ++ kv.2 ++ [('\n' : Char)]

/-- The JSON text fragment emitted for one header field (lines 73-74). -/
def pairJson (kv : List Char × List Char) : List Char :=
  (", \"").data ++ kv.1 ++ ("\": \"").data ++ kv.2 ++ ("\"").data

/-- Whether the `strncmp` test on line 75 fires for this line. -/
def isDateLine (l : List Char) : Bool :=
  match strchrIdx l ':' with
  | some k => strncmp l dateLit k = 0
  | none => false

/-- Header lines on which the date branch fires. -/
def dateLines (lines : List (List Char)) : List (List Char) :=
  (headerLines lines).filter isDateLine

/-- The sort key the date branch derives from a line (lines 80-85). -/
def lineDateVal (l : List Char) : Int :=
  match strchrIdx l ':' with
  | some k => toInt64 (dateKey (l.drop (k + 2)))
  | none => 0

/-- The date accumulated after visiting `hdrs`, starting from `d0`. -/
def lastDateVal (hdrs : List (List Char)) (d0 : Int) : Int :=
  hdrs.foldl (fun d l => if isDateLine l then lineDateVal l else d) d0

/-- A directory of 101 distinct non-dotfile entries, each an empty file. -/
def files101 : List DirEntry :=
  (List.range 101).map (fun i => ('f' :: (Nat.repr i).data, ([] : List (List Char))))

/-! ## Helper lemmas -/

theorem char_toNat_inj {a b : Char} (h : a.toNat = b.toNat) : a = b := by
  rw [← Char.ofNat_toNat a, ← Char.ofNat_toNat b, h]

theorem cmp_posts_eq_zero (lhs rhs : Post) : cmp_posts lhs rhs = 0 := by
  simp [cmp_posts]

theorem sortPosts_eq_self (ps : List Post) : sortPosts ps = ps := by
  apply List.mergeSort_of_sorted
  induction ps with
  | nil => exact List.Pairwise.nil
  | cons a l ih => exact List.Pairwise.cons (fun b _ => by simp [cmp_posts_eq_zero]) ih

theorem strncmp_eq_zero_iff (n : Nat) (a b : List Char)
    (ha : ∀ c ∈ a, c.toNat ≠ 0) (hb : ∀ c ∈ b, c.toNat ≠ 0) :
    (strncmp a b n = 0 ↔ a.take n = b.take n) := by
  induction n generalizing a b with
  | zero => simp [strncmp]
  | succ n ih =>
    match a, b with
    | [], [] => simp [strncmp]
    | [], d :: b =>
      have hd := hb d (List.mem_cons_self d b)
      simp only [strncmp, List.take_nil, List.take_succ_cons]
      constructor
      · intro h
        exfalso
        apply hd
        omega
      · intro h
        exact absurd h (by simp)
    | c :: a, [] =>
      have hc := ha c (List.mem_cons_self c a)
      simp only [strncmp, List.take_nil, List.take_succ_cons]
      constructor
      · intro h
        exfalso
        apply hc
        omega
      · intro h
        exact absurd h (by simp)
    | c :: a, d :: b =>
      have hc := ha c (List.mem_cons_self c a)
      by_cases hcd : c = d
      · subst hcd
        have hstep : strncmp (c :: a) (c :: b) (n + 1) = strncmp a b n := by
          simp [strncmp, hc]
        rw [hstep]
        simp only [List.take_succ_cons, List.cons.injEq, true_and]
        exact ih a b (fun x hx => ha x (List.mem_cons_of_mem c hx))
          (fun x hx => hb x (List.mem_cons_of_mem c hx))
      · have hstep : strncmp (c :: a) (d :: b) (n + 1) =
            (c.toNat : Int) - (d.toNat : Int) := by
          simp [strncmp, hcd]
        rw [hstep]
        simp only [List.take_succ_cons, List.cons.injEq]
        constructor
        · intro h
          exfalso
          exact hcd (char_toNat_inj (by omega))
        · intro h
          exact absurd h.1 hcd

theorem strchrIdx_append_colon (key rest : List Char) (hk : ':' ∉ key) :
    strchrIdx (key ++ ':' :: rest) ':' = some key.length := by
  induction key with
  | nil => simp [strchrIdx]
  | cons c key ih =>
    have hc : ¬ (c = ':') := fun h => hk (by simp [h])
    have ih2 := ih (fun h => hk (List.mem_cons_of_mem c h))
    simp [strchrIdx, hc, ih2]

theorem renderLine_eq (kv : List Char × List Char) :
    renderLine kv = kv.1 ++ ':' :: ' ' :: (kv.2 ++ [('\n' : Char)]) := by
  simp [renderLine]

theorem strchrIdx_renderLine (kv : List Char × List Char) (hk : ':' ∉ kv.1) :
    strchrIdx (renderLine kv) ':' = some kv.1.length := by
  rw [renderLine_eq]
  exact strchrIdx_append_colon kv.1 _ hk

theorem take_renderLine (kv : List Char × List Char) :
    (renderLine kv).take kv.1.length = kv.1 := by
  rw [renderLine_eq]
  exact List.take_left kv.1 _

theorem fieldValue_renderLine (kv : List Char × List Char) :
    fieldValue (renderLine kv) kv.1.length = kv.2 := by
  unfold fieldValue
  rw [renderLine_eq]
  have hdrop : (kv.1 ++ ':' :: ' ' :: (kv.2 ++ [('\n' : Char)])).drop (kv.1.length + 2) =
      kv.2 ++ [('\n' : Char)] := by
    have : kv.1 ++ ':' :: ' ' :: (kv.2 ++ [('\n' : Char)]) =
        (kv.1 ++ [':', ' ']) ++ (kv.2 ++ [('\n' : Char)]) := by simp
    rw [this]
    exact List.drop_left' (by simp)
  have hlen : (kv.1 ++ ':' :: ' ' :: (kv.2 ++ [('\n' : Char)])).length -
      kv.1.length - 3 = kv.2.length := by
    simp
  rw [hdrop, hlen]
  exact List.take_left kv.2 _

theorem processLine_renderLine (name : List Char) (kv : List Char × List Char)
    (hk : ':' ∉ kv.1) (acc res : List Char × Int)
    (h : processLine name (renderLine kv) acc = .ok res) :
    res.1 = acc.1 ++ pairJson kv := by
  simp only [processLine, strchrIdx_renderLine kv hk] at h
  by_cases hd : strncmp (renderLine kv) dateLit kv.1.length = 0
  · rw [if_pos hd] at h
    by_cases hl : (renderLine kv).length ≠ date_line_len
    · rw [if_pos hl] at h
      exact absurd h (by simp)
    · rw [if_neg hl] at h
      have := (Except.ok.injEq _ _).mp h
      rw [← this]
      simp [take_renderLine, fieldValue_renderLine, pairJson, List.append_assoc]
  · rw [if_neg hd] at h
    have := (Except.ok.injEq _ _).mp h
    rw [← this]
    simp [take_renderLine, fieldValue_renderLine, pairJson, List.append_assoc]

theorem processHeader_json (name : List Char) (kvs : List (List Char × List Char))
    (hk : ∀ kv ∈ kvs, ':' ∉ kv.1) :
    ∀ acc res, processHeader name (kvs.map renderLine) acc = .ok res →
      res.1 = acc.1 ++ (kvs.map pairJson).flatten := by
  induction kvs with
  | nil =>
    intro acc res h
    unfold processHeader at h
    have := (Except.ok.injEq _ _).mp h
    rw [← this]
    simp
  | cons kv kvs ih =>
    intro acc res h
    simp only [List.map_cons] at h
    unfold processHeader at h
    cases hpl : processLine name (renderLine kv) acc with
    | error e => rw [hpl] at h; exact absurd h (by simp)
    | ok acc2 =>
      rw [hpl] at h
      have h1 := processLine_renderLine name kv (hk kv (List.mem_cons_self _ _)) acc acc2 hpl
      have h2 := ih (fun g hg => hk g (List.mem_cons_of_mem _ hg)) acc2 res h
      rw [h2, h1]
      simp [List.append_assoc]

theorem processHeader_ok_colon (name : List Char) (hdrs : List (List Char)) :
    ∀ acc res, processHeader name hdrs acc = .ok res →
      ∀ l ∈ hdrs, strchrIdx l ':' ≠ none := by
  induction hdrs with
  | nil => intro acc res h l hl; simp at hl
  | cons l0 ls ih =>
    intro acc res h l hl
    unfold processHeader at h
    cases hpl : processLine name l0 acc with
    | error e => rw [hpl] at h; exact absurd h (by simp)
    | ok acc2 =>
      rw [hpl] at h
      rcases List.mem_cons.mp hl with rfl | hl2
      · intro hn
        simp only [processLine, hn] at hpl
        exact absurd hpl (by simp)
      · exact ih acc2 res h l hl2

theorem processLine_error_shape (name l : List Char) (acc : List Char × Int) (e : Err)
    (h : processLine name l acc = .error e) :
    e = .missingColon name l ∨ e = .malformedDate name l := by
  cases hc : strchrIdx l ':' with
  | none =>
    simp only [processLine, hc] at h
    exact Or.inl ((Except.error.injEq _ _).mp h).symm
  | some k =>
    simp only [processLine, hc] at h
    by_cases hd : strncmp l dateLit k = 0
    · rw [if_pos hd] at h
      by_cases hl : l.length ≠ date_line_len
      · rw [if_pos hl] at h
        exact Or.inr ((Except.error.injEq _ _).mp h).symm
      · rw [if_neg hl] at h
        exact absurd h (by simp)
    · rw [if_neg hd] at h
      exact absurd h (by simp)

theorem processHeader_error_shape (name : List Char) (hdrs : List (List Char)) :
    ∀ acc e, processHeader name hdrs acc = .error e →
      ∃ l, e = .missingColon name l ∨ e = .malformedDate name l := by
  induction hdrs with
  | nil =>
    intro acc e h
    exact absurd h (by simp [processHeader])
  | cons l0 ls ih =>
    intro acc e h
    unfold processHeader at h
    cases hpl : processLine name l0 acc with
    | error e0 =>
      rw [hpl] at h
      have he : e0 = e := (Except.error.injEq _ _).mp h
      exact ⟨l0, he ▸ processLine_error_shape name l0 acc e0 hpl⟩
    | ok acc2 =>
      rw [hpl] at h
      exact ih acc2 e h

theorem processFile_colonless_error (name : List Char) (lines : List (List Char))
    (line : List Char) (hline : line ∈ headerLines lines)
    (hnc : strchrIdx line ':' = none) :
    ∃ e, processFile name lines = .error e ∧
      ∃ l, e = .missingColon name l ∨ e = .malformedDate name l := by
  unfold processFile
  cases hph : processHeader name (headerLines lines)
      ((("\x7b\"path\": \"").data ++ name ++ ("\"").data, 0)) with
  | error e => exact ⟨e, rfl, processHeader_error_shape name (headerLines lines) _ e hph⟩
  | ok acc =>
    exact absurd hnc (processHeader_ok_colon name (headerLines lines) _ acc hph line hline)

theorem runLoop_ok_processFile (files : List DirEntry) :
    ∀ (n : Nat) (ws ws2 : List (Nat × Post)),
      runLoop files n ws = (ws2, none) →
      ∀ nm ls, (nm, ls) ∈ files → nm.head? ≠ some '.' →
        ∃ p, processFile nm ls = .ok p := by
  induction files with
  | nil => intro n ws ws2 h nm ls hmem; simp at hmem
  | cons f rest ih =>
    intro n ws ws2 h nm ls hmem hdot
    obtain ⟨fn, fl⟩ := f
    by_cases hd : fn.head? = some '.'
    · simp only [runLoop, if_pos hd] at h
      rcases List.mem_cons.mp hmem with heq | hmem2
      · have h1 : nm = fn := congrArg Prod.fst heq
        rw [h1] at hdot
        exact absurd hd hdot
      · exact ih n ws ws2 h nm ls hmem2 hdot
    · cases hpf : processFile fn fl with
      | error e =>
        simp only [runLoop, if_neg hd, hpf] at h
        exact absurd h (by simp)
      | ok p =>
        simp only [runLoop, if_neg hd, hpf] at h
        rcases List.mem_cons.mp hmem with heq | hmem2
        · have h1 : nm = fn := congrArg Prod.fst heq
          have h2 : ls = fl := congrArg Prod.snd heq
          exact ⟨p, h1 ▸ h2 ▸ hpf⟩
        · by_cases hcap : n + 1 > MAX_POSTS
          · rw [if_pos hcap] at h
            exact absurd h (by simp)
          · rw [if_neg hcap] at h
            exact ih (n + 1) (ws ++ [(n, p)]) ws2 h nm ls hmem2 hdot

theorem runLoop_dotfiles (fs : List DirEntry)
    (hf : ∀ f ∈ fs, f.1.head? = some '.') :
    ∀ n ws, runLoop fs n ws = (ws, none) := by
  induction fs with
  | nil => intro n ws; rfl
  | cons f rest ih =>
    intro n ws
    obtain ⟨fn, fl⟩ := f
    unfold runLoop
    rw [if_pos (hf (fn, fl) (List.mem_cons_self _ _))]
    exact ih (fun g hg => hf g (List.mem_cons_of_mem _ hg)) n ws

theorem processLine_date_branch (name l : List Char) (acc res : List Char × Int)
    (h : processLine name l acc = .ok res) :
    (isDateLine l = true → l.length = date_line_len ∧ res.2 = lineDateVal l)
    ∧ (isDateLine l = false → res.2 = acc.2) := by
  cases hc : strchrIdx l ':' with
  | none =>
    simp only [processLine, hc] at h
    exact absurd h (by simp)
  | some k =>
    simp only [processLine, hc] at h
    have hdl : isDateLine l = decide (strncmp l dateLit k = 0) := by
      simp [isDateLine, hc]
    have hval : lineDateVal l = toInt64 (dateKey (l.drop (k + 2))) := by
      simp [lineDateVal, hc]
    by_cases hd : strncmp l dateLit k = 0
    · rw [if_pos hd] at h
      by_cases hl : l.length ≠ date_line_len
      · rw [if_pos hl] at h
        exact absurd h (by simp)
      · rw [if_neg hl] at h
        have hres := (Except.ok.injEq _ _).mp h
        constructor
        · intro _
          constructor
          · exact not_not.mp hl
          · rw [← hres, hval]
        · intro hfalse
          rw [hdl] at hfalse
          simp [hd] at hfalse
    · rw [if_neg hd] at h
      have hres := (Except.ok.injEq _ _).mp h
      constructor
      · intro htrue
        rw [hdl] at htrue
        simp [hd] at htrue
      · intro _
        rw [← hres]

theorem lastDateVal_cons (l : List Char) (ls : List (List Char)) (d0 : Int) :
    lastDateVal (l :: ls) d0 = lastDateVal ls (if isDateLine l then lineDateVal l else d0) := by
  simp [lastDateVal]

theorem processHeader_lastDate (name : List Char) (hdrs : List (List Char)) :
    ∀ acc res, processHeader name hdrs acc = .ok res →
      (∀ l ∈ hdrs, isDateLine l = true → l.length = date_line_len)
      ∧ res.2 = lastDateVal hdrs acc.2 := by
  induction hdrs with
  | nil =>
    intro acc res h
    unfold processHeader at h
    have hres := (Except.ok.injEq _ _).mp h
    constructor
    · intro l hl
      simp at hl
    · rw [← hres]
      simp [lastDateVal]
  | cons l0 ls ih =>
    intro acc res h
    unfold processHeader at h
    cases hpl : processLine name l0 acc with
    | error e =>
      rw [hpl] at h
      exact absurd h (by simp)
    | ok acc2 =>
      rw [hpl] at h
      have hd := processLine_date_branch name l0 acc acc2 hpl
      have hih := ih acc2 res h
      rw [lastDateVal_cons]
      constructor
      · intro l hl htrue
        rcases List.mem_cons.mp hl with rfl | hl2
        · exact (hd.1 htrue).1
        · exact hih.1 l hl2 htrue
      · cases hbool : isDateLine l0 with
        | true =>
          simp only [hbool, if_pos]
          rw [hih.2, (hd.1 hbool).2]
        | false =>
          simp only [hbool, Bool.false_eq_true, if_neg, not_false_iff]
          rw [hih.2, hd.2 hbool]

theorem lastDateVal_of_no_date (hdrs : List (List Char)) :
    ∀ d0 : Int, hdrs.filter isDateLine = [] → lastDateVal hdrs d0 = d0 := by
  induction hdrs with
  | nil => intro d0 _; simp [lastDateVal]
  | cons l ls ih =>
    intro d0 h
    rw [List.filter_cons] at h
    by_cases hb : isDateLine l = true
    · rw [if_pos hb] at h
      exact absurd h (by simp)
    · rw [if_neg hb] at h
      rw [lastDateVal_cons, if_neg hb]
      exact ih d0 h

theorem lastDateVal_getLast (hdrs : List (List Char)) :
    ∀ (d0 : Int) (l : List Char),
      (hdrs.filter isDateLine).getLast? = some l →
      lastDateVal hdrs d0 = lineDateVal l := by
  induction hdrs with
  | nil => intro d0 l h; simp at h
  | cons l0 ls ih =>
    intro d0 l h
    rw [List.filter_cons] at h
    rw [lastDateVal_cons]
    by_cases hb : isDateLine l0 = true
    · rw [if_pos hb] at h
      rw [if_pos hb]
      cases hft : ls.filter isDateLine with
      | nil =>
        rw [hft] at h
        simp only [List.getLast?_singleton, Option.some.injEq] at h
        rw [lastDateVal_of_no_date ls _ hft, ← h]
      | cons y ys =>
        rw [hft, List.getLast?_cons_cons, ← hft] at h
        exact ih (lineDateVal l0) l h
    · rw [if_neg hb] at h
      rw [if_neg hb]
      exact ih d0 l h

/-! ## Claims -/

/-- C1: the spec's intended date-descending order does not hold; on a
directory of two well-formed posts enumerated older-first, the emitted
array keeps enumeration order, so the record with the strictly smaller
sort key appears first.  This exhibits the consequence of the
`rhs_date - rhs_date` comparator at a concrete failing input. -/
theorem c1_failing_input_enumeration_order :
    toInt64 (dateKey (("2023-12-31").data)) < toInt64 (dateKey (("2024-01-15").data))
    ∧ listPosts
        [(("a.md").data, [("A\n").data, ("date: 2023-12-31\n").data]),
         (("b.md").data, [("B\n").data, ("date: 2024-01-15\n").data])] =
      .ok (("[\n\x7b\"path\": \"a.md\", \"date\": \"2023-12-31\"\x7d\n\x7b\"path\": \"b.md\", \"date\": \"2024-01-15\"\x7d\n]\n").data) := by
  constructor
  · decide
  · have h1 : listPosts
        [(("a.md").data, [("A\n").data, ("date: 2023-12-31\n").data]),
         (("b.md").data, [("B\n").data, ("date: 2024-01-15\n").data])] =
      .ok (output (sortPosts
        [⟨toInt64 (dateKey (("2023-12-31").data)), ("\x7b\"path\": \"a.md\", \"date\": \"2023-12-31\"\x7d").data⟩,
         ⟨toInt64 (dateKey (("2024-01-15").data)), ("\x7b\"path\": \"b.md\", \"date\": \"2024-01-15\"\x7d").data⟩])) := rfl
    rw [h1, sortPosts_eq_self]
    rfl

/-- C2: a header line `date: 2024-01-15` yields exactly the sort key
obtained by reading the ASCII bytes of `20240115` as an 8-byte
big-endian integer, and that key lies strictly between the keys derived
from `2023-12-31` and `2024-02-01`. -/
theorem c2_sort_key_is_big_endian_ascii :
    (∀ (name j : List Char) (d : Int), ∃ j2,
        processLine name (("date: 2024-01-15\n").data) (j, d) =
          .ok (j2, toInt64 (beBytes (("20240115").data))))
    ∧ dateKey (("2024-01-15").data) = beBytes (("20240115").data)
    ∧ dateKey (("2023-12-31").data) < dateKey (("2024-01-15").data)
    ∧ dateKey (("2024-01-15").data) < dateKey (("2024-02-01").data) := by
  refine ⟨fun name j d => ⟨_, rfl⟩, by decide, by decide, by decide⟩

/-- C3 counterexample: the well-formed line `date: 2024-01-15` (17
characters with its newline) is accepted although its length differs
from 18, and the 18-character line `date: 2024-01-155` is rejected
although the claim says a line of exactly 18 characters is accepted. -/
theorem c3_counterexample_length_is_17_not_18 :
    ((∃ j d, processLine (("a.md").data) (("date: 2024-01-15\n").data) ([], 0) = .ok (j, d))
      ∧ (("date: 2024-01-15\n").data).length ≠ 18)
    ∧ (processLine (("a.md").data) (("date: 2024-01-155\n").data) ([], 0) =
        .error (.malformedDate (("a.md").data) (("date: 2024-01-155\n").data))
      ∧ (("date: 2024-01-155\n").data).length = 18) :=
  ⟨⟨⟨_, _, rfl⟩, by decide⟩, ⟨rfl, by decide⟩⟩

/-- C3 amended: for a header line on which the date branch fires, the
malformed-date error is raised exactly when the line's total length,
newline included, differs from 17 (= `strlen("date: YYYY-MM-DD\n")`);
a 17-character line is accepted with no calendar validation, its key
taken straight from the bytes after the colon. -/
theorem c3_date_length_check_is_17 (name line : List Char) (acc : List Char × Int)
    (keyLen : Nat) (hc : strchrIdx line ':' = some keyLen)
    (hd : strncmp line dateLit keyLen = 0) :
    (line.length ≠ 17 → processLine name line acc = .error (.malformedDate name line))
    ∧ (line.length = 17 →
        ∃ j, processLine name line acc = .ok (j, toInt64 (dateKey (line.drop (keyLen + 2))))) := by
  have h17 : date_line_len = 17 := rfl
  unfold processLine
  rw [hc]
  constructor
  · intro hlen
    simp [hd, h17, hlen]
  · intro hlen
    refine ⟨acc.1 ++ (", \"").data ++ line.take keyLen ++ ("\": \"").data ++
      fieldValue line keyLen ++ ("\"").data, ?_⟩
    simp [hd, h17, hlen]

/-- C3 amended, witness: the 15-character line `date: 2024-1-5` is
rejected with the malformed-date error naming the file and the line. -/
theorem c3_date_length_check_is_17_witness :
    processLine (("a.md").data) (("date: 2024-1-5\n").data) ([], 0) =
      .error (.malformedDate (("a.md").data) (("date: 2024-1-5\n").data)) :=
  (c3_date_length_check_is_17 (("a.md").data) (("date: 2024-1-5\n").data) ([], 0)
    4 rfl (by decide)).1 (by decide)

/-- C4 counterexample: a header line whose key is `dat`, a proper prefix
of `date`, does trigger the date branch and its malformed-date length
check, instead of being treated as an ordinary metadata field. -/
theorem c4_counterexample_dat_triggers_date_check :
    processLine (("a.md").data) (("dat: hello\n").data) ([], 0) =
      .error (.malformedDate (("a.md").data) (("dat: hello\n").data)) := rfl

/-- C4 amended: for a NUL-free header line whose first colon is at index
`keyLen`, the `strncmp` test on line 75 succeeds exactly when the key
equals `date` truncated to the key's own length — i.e. for the keys
`date`, `dat`, `da`, `d` and the empty key, not only for `date`. -/
theorem c4_date_branch_iff_key_matches_date_truncated (line : List Char) (keyLen : Nat)
    (hc : strchrIdx line ':' = some keyLen)
    (hnul : ∀ c ∈ line, c.toNat ≠ 0) :
    strncmp line dateLit keyLen = 0 ↔ line.take keyLen = dateLit.take keyLen :=
  strncmp_eq_zero_iff keyLen line dateLit hnul (by decide)

/-- C4 amended, witness: the key `dat` passes the `strncmp` test. -/
theorem c4_date_branch_iff_key_matches_date_truncated_witness :
    strncmp (("dat: hello\n").data) dateLit 3 = 0 :=
  (c4_date_branch_iff_key_matches_date_truncated (("dat: hello\n").data) 3 rfl
    (by decide)).mpr (by decide)

/-- C5: `cmp_posts` returns 0 on every pair of records, so the sort is
the identity and a successful run emits the records exactly in the order
the directory enumeration produced them. -/
theorem c5_comparator_constant_zero_sort_is_identity :
    (∀ lhs rhs : Post, cmp_posts lhs rhs = 0)
    ∧ (∀ ps : List Post, sortPosts ps = ps)
    ∧ (∀ (files : List DirEntry) (posts : List Post),
        run files = .ok posts → listPosts files = .ok (output posts)) := by
  refine ⟨cmp_posts_eq_zero, sortPosts_eq_self, ?_⟩
  intro files posts h
  unfold listPosts
  rw [h]
  show Except.ok (output (sortPosts posts)) = Except.ok (output posts)
  rw [sortPosts_eq_self]

/-- C5 witness: a one-file directory, with `run`'s result emitted
unsorted. -/
theorem c5_comparator_constant_zero_sort_is_identity_witness :
    listPosts [(("c.md").data, [("C\n").data])] =
      .ok (output [⟨0, ("\x7b\"path\": \"c.md\"\x7d").data⟩]) :=
  c5_comparator_constant_zero_sort_is_identity.2.2
    [(("c.md").data, [("C\n").data])] [⟨0, ("\x7b\"path\": \"c.md\"\x7d").data⟩] rfl

/-- C6: in a successful run, a file whose header lines are exactly the
well-formed renderings of the pairs `kvs` (keys without colons) produces
a JSON object consisting of the path field followed by precisely those
pairs, each with its key and value copied verbatim (no escaping), and
nothing else. -/
theorem c6_header_fields_round_trip (name : List Char) (lines : List (List Char))
    (kvs : List (List Char × List Char)) (post : Post)
    (hh : headerLines lines = kvs.map renderLine)
    (hk : ∀ kv ∈ kvs, ':' ∉ kv.1)
    (hok : processFile name lines = .ok post) :
    post.json = ("\x7b\"path\": \"").data ++ name ++ ("\"").data
      ++ (kvs.map pairJson).flatten ++ ("\x7d").data := by
  unfold processFile at hok
  rw [hh] at hok
  cases hph : processHeader name (kvs.map renderLine)
      ((("\x7b\"path\": \"").data ++ name ++ ("\"").data, 0)) with
  | error e => rw [hph] at hok; exact absurd hok (by simp)
  | ok acc =>
    rw [hph] at hok
    have h1 := processHeader_json name kvs hk _ acc hph
    have := (Except.ok.injEq _ _).mp hok
    rw [← this]
    rw [h1]

/-- C6 witness: a file with header `title: Hi`. -/
theorem c6_header_fields_round_trip_witness :
    (Post.mk 0 (("\x7b\"path\": \"p.md\", \"title\": \"Hi\"\x7d").data)).json =
      ("\x7b\"path\": \"").data ++ (("p.md").data) ++ ("\"").data
      ++ ([((("title").data), (("Hi").data))].map pairJson).flatten ++ ("\x7d").data :=
  c6_header_fields_round_trip (("p.md").data) [("T\n").data, ("title: Hi\n").data]
    [((("title").data), (("Hi").data))]
    (Post.mk 0 (("\x7b\"path\": \"p.md\", \"title\": \"Hi\"\x7d").data))
    rfl (by decide) rfl

/-- C7: if some visited non-dotfile has a header line with no colon, the
run yields an error — hence no JSON is produced on standard output,
which `listPosts` writes only after every file succeeded — and that
file's own processing fails with a diagnostic carrying the file name and
an offending line. -/
theorem c7_missing_colon_aborts_run_without_output (files : List DirEntry)
    (name line : List Char) (lines : List (List Char))
    (hmem : (name, lines) ∈ files) (hdot : name.head? ≠ some '.')
    (hline : line ∈ headerLines lines) (hnc : strchrIdx line ':' = none) :
    (∃ e, listPosts files = .error e)
    ∧ (∃ l, processFile name lines = .error (.missingColon name l)
          ∨ processFile name lines = .error (.malformedDate name l)) := by
  obtain ⟨e0, he0, l, hl⟩ := processFile_colonless_error name lines line hline hnc
  constructor
  · rcases hr : runLoop files 0 [] with ⟨ws, oe⟩
    cases oe with
    | some e2 =>
      refine ⟨e2, ?_⟩
      unfold listPosts run
      rw [hr]
    | none =>
      exfalso
      obtain ⟨p, hp⟩ := runLoop_ok_processFile files 0 [] ws hr name lines hmem hdot
      rw [he0] at hp
      exact absurd hp (by simp)
  · refine ⟨l, ?_⟩
    rcases hl with h | h
    · exact Or.inl (by rw [he0, h])
    · exact Or.inr (by rw [he0, h])

/-- C7 witness: a directory with one file whose second line has no
colon. -/
theorem c7_missing_colon_aborts_run_without_output_witness :
    (∃ e, listPosts [((("n.md").data), [("T\n").data, ("nocolon\n").data])] = .error e)
    ∧ (∃ l, processFile (("n.md").data) [("T\n").data, ("nocolon\n").data] =
          .error (.missingColon (("n.md").data) l)
        ∨ processFile (("n.md").data) [("T\n").data, ("nocolon\n").data] =
          .error (.malformedDate (("n.md").data) l)) :=
  c7_missing_colon_aborts_run_without_output
    [((("n.md").data), [("T\n").data, ("nocolon\n").data])]
    (("n.md").data) (("nocolon\n").data) [("T\n").data, ("nocolon\n").data]
    (List.mem_cons_self _ _) (by decide) (by decide) rfl

/-- C8: with 101 non-dotfile entries the run does end with the
`tooManyPosts` diagnostic, but only after `posts[nposts++] = post` has
stored the 101st record at array index `MAX_POSTS` — one past the last
valid index of the `posts[MAX_POSTS]` array — because the capacity test
`nposts > MAX_POSTS` runs after the store; the claimed absence of an
out-of-bounds write does not hold. -/
theorem c8_capacity_error_reported_after_out_of_bounds_write :
    (runLoop files101 0 []).2 = some (.tooManyPosts 101)
    ∧ MAX_POSTS ∈ (runLoop files101 0 []).1.map Prod.fst := by
  constructor
  · rfl
  · decide

/-- C9: a directory whose entries all begin with a dot produces the
two-line empty array `[` newline `]` newline on standard output. -/
theorem c9_only_dotfiles_yields_empty_array (files : List DirEntry)
    (h : ∀ f ∈ files, f.1.head? = some '.') :
    listPosts files = .ok (("[\n]\n").data) := by
  unfold listPosts run
  rw [runLoop_dotfiles files h 0 []]
  simp only [List.map_nil]
  rw [sortPosts_eq_self]
  rfl

/-- C9 witness: a directory containing only `.gitkeep`. -/
theorem c9_only_dotfiles_yields_empty_array_witness :
    listPosts [((".gitkeep").data, [])] = .ok (("[\n]\n").data) :=
  c9_only_dotfiles_yields_empty_array [((".gitkeep").data, [])] (by decide)

/-- C10: in a successful run every header line on which the date branch
fires passed the fixed-width length check — so one malformed date line
is fatal no matter how many well-formed ones accompany it — and the
record's sort key is the one derived from the last such line. -/
theorem c10_all_date_lines_checked_last_one_wins (name : List Char)
    (lines : List (List Char)) (post : Post)
    (hok : processFile name lines = .ok post) :
    (∀ l ∈ headerLines lines, isDateLine l = true → l.length = date_line_len)
    ∧ (∀ l, (dateLines lines).getLast? = some l → post.date = lineDateVal l) := by
  unfold processFile at hok
  cases hph : processHeader name (headerLines lines)
      ((("\x7b\"path\": \"").data ++ name ++ ("\"").data, 0)) with
  | error e =>
    rw [hph] at hok
    exact absurd hok (by simp)
  | ok acc =>
    rw [hph] at hok
    have hmain := processHeader_lastDate name (headerLines lines) _ acc hph
    have hpost := (Except.ok.injEq _ _).mp hok
    refine ⟨hmain.1, ?_⟩
    intro l hl
    rw [← hpost]
    show acc.2 = lineDateVal l
    rw [hmain.2]
    simp only [dateLines] at hl
    exact lastDateVal_getLast (headerLines lines) 0 l hl

/-- C10 witness: a file with two date lines keeps the key of the second
one. -/
theorem c10_all_date_lines_checked_last_one_wins_witness :
    (Post.mk (toInt64 (dateKey (("2024-02-02").data)))
        (("\x7b\"path\": \"x.md\", \"date\": \"2023-01-01\", \"date\": \"2024-02-02\"\x7d").data)).date =
      lineDateVal (("date: 2024-02-02\n").data) :=
  (c10_all_date_lines_checked_last_one_wins (("x.md").data)
    [("T\n").data, ("date: 2023-01-01\n").data, ("date: 2024-02-02\n").data]
    (Post.mk (toInt64 (dateKey (("2024-02-02").data)))
        (("\x7b\"path\": \"x.md\", \"date\": \"2023-01-01\", \"date\": \"2024-02-02\"\x7d").data))
    rfl).2 (("date: 2024-02-02\n").data) rfl

end ListPosts
